import Mathlib

/-!
Shallow embedding of the D11_Leaderboard points-ledger core:
`src/database.py` (the three stores and the transaction helper),
`src/utils.py` (input validation and mention parsing), `src/config.py`
(the configured match-number limit), and the `!win` / `!d11` branches of
`src/dream11_bot.py`.

The Supabase backing store is modelled as an explicit in-memory state
(`DB`): three typed tables plus an auto-increment id counter and a
logical clock that stands in for `datetime.now()` timestamps (the
isoformat strings compare like the order in which they were produced).
Raising `DatabaseError` / `TransactionError` is modelled with
`Except String` / `Option String` results; writes already executed
persist in the returned state, exactly as the sequential Supabase calls
in `execute_in_transaction` do (there is no real transaction around
them).
-/

namespace D11

/-- A Python value appearing in an operation's `data` or `conditions`
dict: a string, an integer, or a nested dict such as `{'neq': ''}`
(only string-valued dicts occur in the source). -/
inductive Val where
  | vstr (s : String)
  | vint (n : Int)
  | vdict (pairs : List (String × String))
deriving DecidableEq, Repr

/-- A row of the `points` table: `{username, user_points}`. -/
structure PointsRow where
  username : String
  user_points : Int
deriving DecidableEq, Repr

/-- A row of the `history` table:
`{id, username, points, match_number, updated_by, timestamp}`.
`id` is assigned by the store (auto-increment); `timestamp` is the
logical time of the insert. -/
structure HistoryRow where
  id : Nat
  username : String
  points : Int
  match_number : Int
  updated_by : String
  timestamp : Nat
deriving DecidableEq, Repr

/-- A row of the `match_results` table: `{match_number, winner, timestamp}`. -/
structure MatchResultRow where
  match_number : Int
  winner : String
  timestamp : Nat
deriving DecidableEq, Repr

/-- The backing store: the three tables used by the ledger, the
auto-increment counter for `history.id`, and a logical clock standing
in for wall-clock timestamps. -/
structure DB where
  points : List PointsRow
  history : List HistoryRow
  match_results : List MatchResultRow
  nextId : Nat
  clock : Nat
deriving DecidableEq, Repr

/-- The store before any operation has run. -/
def DB.empty : DB := ⟨[], [], [], 0, 0⟩

/-- The `data` dict of a staged operation, one shape per dict literal
appearing in `src/database.py`. -/
inductive OpData where
  | nodata
  | pointsRow (username : String) (user_points : Int)
  | pointsVal (user_points : Int)
  | historyRow (username : String) (points : Int) (match_number : Int) (updated_by : String)
  | matchResultRow (match_number : Int) (winner : String)
deriving DecidableEq, Repr

/-- One staged operation dict, as consumed by `execute_in_transaction`:
`{table, action, data, conditions}`. The `action` is kept as the raw
string so that the dispatch on it is modelled faithfully. -/
structure Op where
  table : String
  action : String
  data : OpData
  conditions : List (String × Val)
deriving DecidableEq, Repr

/-- `query.eq(key, value)` filtering for a `points` row. A condition
holds when the row's column equals the condition value; comparing the
string column to a dict value (as `clear_points` does) never holds. -/
def PointsRow.matchesCond (r : PointsRow) (c : String × Val) : Bool :=
  if c.1 == "username" then Val.vstr r.username == c.2
  else if c.1 == "user_points" then Val.vint r.user_points == c.2
  else false

/-- `query.eq(key, value)` filtering for a `history` row. -/
def HistoryRow.matchesCond (r : HistoryRow) (c : String × Val) : Bool :=
  if c.1 == "id" then Val.vint (Int.ofNat r.id) == c.2
  else if c.1 == "username" then Val.vstr r.username == c.2
  else if c.1 == "match_number" then Val.vint r.match_number == c.2
  else false

/-- `query.eq(key, value)` filtering for a `match_results` row. -/
def MatchResultRow.matchesCond (r : MatchResultRow) (c : String × Val) : Bool :=
  if c.1 == "match_number" then Val.vint r.match_number == c.2
  else if c.1 == "winner" then Val.vstr r.winner == c.2
  else false

/-- `supabase.table(t).insert(data).execute()`. Inserting into
`history` lets the store assign the auto-increment `id` and a
timestamp; inserting into `match_results` stamps the current time. -/
def applyInsert (db : DB) (op : Op) : DB :=
  if op.table == "points" then
    match op.data with
    | .pointsRow u p => { db with points := db.points ++ [⟨u, p⟩] }
    | _ => db
  else if op.table == "history" then
    match op.data with
    | .historyRow u p m b =>
        { db with
          history := db.history ++ [⟨db.nextId, u, p, m, b, db.clock⟩],
          nextId := db.nextId + 1,
          clock := db.clock + 1 }
    | _ => db
  else if op.table == "match_results" then
    match op.data with
    | .matchResultRow m w =>
        { db with
          match_results := db.match_results ++ [⟨m, w, db.clock⟩],
          clock := db.clock + 1 }
    | _ => db
  else db

/-- `supabase.table(t).update(data)` followed by `.eq(k, v)` for each
condition: every row satisfying all conditions receives the new column
value. Only `points` (and `user_alerts`, outside this model) are ever
updated in the source. -/
def applyUpdate (db : DB) (op : Op) : DB :=
  if op.table == "points" then
    match op.data with
    | .pointsVal np =>
        { db with points := db.points.map fun r =>
            if op.conditions.all (fun c => r.matchesCond c) then
              { r with user_points := np }
            else r }
    | _ => db
  else db

/-- `supabase.table(t).delete()` followed by `.eq(k, v)` for each
condition: every row satisfying all conditions is removed. -/
def applyDelete (db : DB) (op : Op) : DB :=
  if op.table == "points" then
    { db with points := db.points.filter fun r =>
        !(op.conditions.all (fun c => r.matchesCond c)) }
  else if op.table == "history" then
    { db with history := db.history.filter fun r =>
        !(op.conditions.all (fun c => r.matchesCond c)) }
  else if op.table == "match_results" then
    { db with match_results := db.match_results.filter fun r =>
        !(op.conditions.all (fun c => r.matchesCond c)) }
  else db

/-- `execute_in_transaction` from `src/database.py`: executes the
staged operations one by one, dispatching on the `action` string; an
unrecognised action raises `ValueError`, wrapped into
`TransactionError` by the two `except` blocks. There is no rollback:
operations already executed stay applied in the returned state, and
`some msg` signals the raised `TransactionError`. -/
def execute_in_transaction : DB → List Op → DB × Option String
  | db, [] => (db, none)
  | db, op :: rest =>
    if op.action == "insert" then execute_in_transaction (applyInsert db op) rest
    else if op.action == "update" then execute_in_transaction (applyUpdate db op) rest
    else if op.action == "delete" then execute_in_transaction (applyDelete db op) rest
    else
      (db, some ("Transaction failed: Failed to execute " ++ op.action ++ " on "
        ++ op.table ++ ": Invalid action: " ++ op.action))

/-- Python `str.startswith`, character-wise (the source only checks
ASCII prefixes, where byte-wise and character-wise agree). -/
def pyStartsWith (s pre : String) : Bool :=
  pre.toList.isPrefixOf s.toList

/-- Python `str.endswith`, character-wise. -/
def pyEndsWith (s suf : String) : Bool :=
  suf.toList.isSuffixOf s.toList

/-- The username normalisation at the top of `update_points`:
wrap in `<@...>` unless already of that shape. -/
def normalizeUsername (username : String) : String :=
  if !(pyStartsWith username "<@") || !(pyEndsWith username ">") then
    "<@" ++ username ++ ">"
  else username

/-- `update_points` from `src/database.py`: reads the current balance,
stages an insert-or-update on `points`, an insert on `history`, and an
`'upsert'` on `match_results`, then runs `execute_in_transaction`.
`Except.error` models the raised `DatabaseError`; the returned `DB` is
the store state after the call, including writes that were executed
before any failure. -/
def update_points (db : DB) (username : String) (points : Int)
    (match_number : Int) (updated_by : String) : DB × Except String Unit :=
  let uname := normalizeUsername username
  let ops : List Op :=
    (match db.points.find? (fun r => r.username == uname) with
     | none =>
        [⟨"points", "insert", .pointsRow uname points, []⟩]
     | some r =>
        [⟨"points", "update", .pointsVal (r.user_points + points),
          [("username", .vstr uname)]⟩])
    ++ [⟨"history", "insert", .historyRow uname points match_number updated_by, []⟩,
        ⟨"match_results", "upsert", .matchResultRow match_number uname, []⟩]
  match execute_in_transaction db ops with
  | (db', none) => (db', .ok ())
  | (db', some e) => (db', .error ("Failed to update points: " ++ e))

/-- `clear_points` from `src/database.py`: stages deletes on `points`
and `history` (only), each with the condition dict
`{'username': {'neq': ''}}` passed through `query.eq`. -/
def clear_points (db : DB) : DB × Except String Unit :=
  match execute_in_transaction db
    [⟨"points", "delete", .nodata, [("username", .vdict [("neq", "")])]⟩,
     ⟨"history", "delete", .nodata, [("username", .vdict [("neq", "")])]⟩] with
  | (db', none) => (db', .ok ())
  | (db', some e) => (db', .error ("Failed to clear points: " ++ e))

/-- `order('timestamp', desc=True).limit(1)`: the history row with the
greatest timestamp (ties, which cannot arise for store-assigned
timestamps, resolve to the later row). -/
def latestByTimestamp : List HistoryRow → Option HistoryRow
  | [] => none
  | r :: rest =>
    match latestByTimestamp rest with
    | none => some r
    | some m => if r.timestamp ≤ m.timestamp then some m else some r

/-- `undo_last_points_update` from `src/database.py`: picks the history
row with the greatest timestamp; if none, returns
`(False, "No points to undo")`. Otherwise stages an update on `points`
(only when the user still has a points row) and a delete of that
history row by `id`, and reports `(True, "Undid ...")`. No
`match_results` operation is ever staged. -/
def undo_last_points_update (db : DB) : DB × Except String (Bool × String) :=
  match latestByTimestamp db.history with
  | none => (db, .ok (false, "No points to undo"))
  | some entry =>
    let ops : List Op :=
      (match db.points.find? (fun r => r.username == entry.username) with
       | some r =>
          [⟨"points", "update", .pointsVal (r.user_points - entry.points),
            [("username", .vstr entry.username)]⟩]
       | none => [])
      ++ [⟨"history", "delete", .nodata, [("id", .vint (Int.ofNat entry.id))]⟩]
    match execute_in_transaction db ops with
    | (db', none) =>
        (db', .ok (true, "Undid " ++ toString entry.points ++ " point(s) for "
          ++ entry.username))
    | (db', some e) => (db', .error ("Failed to undo points update: " ++ e))

/-- The all-users view produced by `get_points()` with no argument:
`{item['username']: item['user_points'] for item in response.data}`. -/
def allPoints (db : DB) : List (String × Int) :=
  db.points.map fun r => (r.username, r.user_points)

/-- `get_points` from `src/database.py`. `if user_id:` is Python
truthiness, so both `None` and `0` take the all-users branch; a truthy
id is formatted as `<@id>` and looked up, defaulting to `0`. -/
def get_points (db : DB) (user_id : Option Int) : (List (String × Int)) ⊕ Int :=
  match user_id with
  | some uid =>
    if uid ≠ 0 then
      match db.points.find? (fun r => r.username == "<@" ++ toString uid ++ ">") with
      | none => Sum.inr 0
      | some r => Sum.inr r.user_points
    else Sum.inl (allPoints db)
  | none => Sum.inl (allPoints db)

/-- The balance a reader observes for `u` in a points table: the
`user_points` of the first row with that username, `0` when absent. -/
def pointsBalance (l : List PointsRow) (u : String) : Int :=
  match l.find? (fun r => r.username == u) with
  | some r => r.user_points
  | none => 0

/-- The stored balance a reader observes for `u`. -/
def balanceOf (db : DB) (u : String) : Int :=
  pointsBalance db.points u

/-- Sum of the `points` deltas of the rows of `u` in a history table. -/
def historySum (l : List HistoryRow) (u : String) : Int :=
  ((l.filter (fun e => e.username == u)).map (fun e => e.points)).sum

/-- Sum of the `points` deltas of the surviving history rows of `u`. -/
def histSum (db : DB) (u : String) : Int :=
  historySum db.history u

namespace Config

/-- `Config.MAX_MATCH_NUMBER` from `src/config.py` (default `'74'`). -/
def maxMatchNumber : Int := 74

end Config

/-- Continuation of `re.match(r'<@!?\d+>', text)` after at least one
digit has been consumed: more digits, then a literal `>` (anything may
follow, since `re.match` only anchors the start). -/
def digitsThenGt : List Char → Bool
  | [] => false
  | c :: cs => if c.isDigit then digitsThenGt cs else c == '>'

/-- `re.match(r'<@!?\d+>', text)`: a `<@` prefix, an optional `!`, one
or more digits, and a closing `>`. -/
def mentionRegexMatch (text : String) : Bool :=
  match text.toList with
  | '<' :: '@' :: rest =>
    (match rest with
     | '!' :: r => (match r with
        | c :: cs => c.isDigit && digitsThenGt cs
        | [] => false)
     | c :: cs => c.isDigit && digitsThenGt cs
     | [] => false)
  | _ => false

/-- `is_mention` from `src/utils.py`: the regex prefix match, or a
leading `@`. -/
def is_mention (text : String) : Bool :=
  mentionRegexMatch text || pyStartsWith text "@"

/-- `format_username` from `src/utils.py`. -/
def format_username (username : String) : String :=
  if is_mention username then username else "@" ++ username

/-- Python `str.isalnum()`: non-empty and every character alphanumeric. -/
def pyIsAlnum (s : String) : Bool :=
  !(s == "") && s.toList.all Char.isAlphanum

/-- `validate_input` from `src/utils.py`. A mention-form username
returns success immediately, before the match-number range check; only
plain usernames reach the `match_number` bounds test against
`Config.MAX_MATCH_NUMBER`. -/
def validate_input (username : String) (match_number : Int) : Bool × String :=
  if is_mention username then (true, "")
  else if username == "" || username.length > 32 || !(pyIsAlnum username) then
    (false, "Invalid username format. Use only letters and numbers or mention a user.")
  else if match_number < 1 || match_number > Config.maxMatchNumber then
    (false, "Invalid match number. Must be between 1 and "
      ++ toString Config.maxMatchNumber ++ ".")
  else (true, "")

/-- The `!win` branch of `on_message` in `src/dream11_bot.py`, from the
point where `username` and `match_number` have been parsed: validation,
the non-admin schedule gate (match present in the schedule and dated
today), then `update_points(username, 1, match_number, author)`. The
schedule is the external CSV lookup, abstracted as a date per match
number; the reply string sent to the channel is returned alongside the
store state. -/
def winCommand (db : DB) (username : String) (match_number : Int)
    (authorIsAdmin : Bool) (schedule : Int → Option Nat) (today : Nat)
    (authorName : String) : DB × String :=
  let v := validate_input username match_number
  if v.1 = false then (db, v.2)
  else
    let runUpdate : DB × String :=
      match update_points db username 1 match_number authorName with
      | (db', .ok _) =>
          (db', "Added 1 point to " ++ format_username username
            ++ " for winning Match " ++ toString match_number
            ++ (if authorIsAdmin then " (Admin override)" else ""))
      | (db', .error _) =>
          (db', "Error updating points. Please try again later.")
    match authorIsAdmin, schedule match_number with
    | false, none => (db, "Match " ++ toString match_number ++ " not found in schedule.")
    | false, some d =>
        if d ≠ today then
          (db, "You can only record points for matches scheduled for today.")
        else runUpdate
    | true, _ => runUpdate

/-- The comparison `sorted(points.items(), key=lambda x: x[1],
reverse=True)` sorts by: `a` may precede `b` when `b`'s points do not
exceed `a`'s. -/
def leaderboardLe (a b : String × Int) : Bool :=
  b.2 ≤ a.2

/-- `sorted(points.items(), key=lambda x: x[1], reverse=True)` in the
`!d11` branch: a stable descending sort on the point values (Python's
`sorted` is stable, and `reverse=True` keeps equal elements in their
original order). -/
def leaderboardSort (l : List (String × Int)) : List (String × Int) :=
  l.mergeSort leaderboardLe

/-- The `(actor, points)` sequence the `!d11` handler renders: the
all-users `get_points()` view, stably sorted descending by points. -/
def d11Leaderboard (db : DB) : List (String × Int) :=
  leaderboardSort (allPoints db)

/-! ### Derived views used to state what the staged operations compute -/

/-- The points table after the insert-or-update staged by
`update_points`: append a fresh row when the user has none, otherwise
set every row of that username to the first-found row's value plus `p`. -/
def awardPoints (l : List PointsRow) (uname : String) (p : Int) : List PointsRow :=
  match l.find? (fun r => r.username == uname) with
  | none => l ++ [⟨uname, p⟩]
  | some r => l.map fun s =>
      if s.username == uname then { s with user_points := r.user_points + p } else s

/-- The points table after the update staged by
`undo_last_points_update` (no surviving row: no update staged). -/
def subtractPoints (l : List PointsRow) (uname : String) (p : Int) : List PointsRow :=
  match l.find? (fun r => r.username == uname) with
  | none => l
  | some r => l.map fun s =>
      if s.username == uname then { s with user_points := r.user_points - p } else s

/-- The `DatabaseError` message every `update_points` call raises. -/
def upsertFailureMsg : String :=
  "Failed to update points: Transaction failed: Failed to execute upsert on match_results: Invalid action: upsert"

@[simp] theorem vstr_beq_vstr (a b : String) :
    (Val.vstr a == Val.vstr b) = (a == b) := by
  by_cases h : a = b <;> simp [h]

@[simp] theorem vint_beq_vint (a b : Int) :
    (Val.vint a == Val.vint b) = (a == b) := by
  by_cases h : a = b <;> simp [h]

@[simp] theorem vstr_beq_vdict (a : String) (l : List (String × String)) :
    (Val.vstr a == Val.vdict l) = false := by
  simp [beq_eq_false_iff_ne]

@[simp] theorem natCast_beq_natCast (a b : Nat) :
    ((Nat.cast a : Int) == (Nat.cast b : Int)) = (a == b) := by
  by_cases h : a = b <;> simp [h]

theorem applyUpdate_points_username (db : DB) (np : Int) (un : String) :
    applyUpdate db ⟨"points", "update", .pointsVal np, [("username", .vstr un)]⟩ =
      { db with points := db.points.map fun s =>
          if s.username == un then { s with user_points := np } else s } := by
  unfold applyUpdate
  simp [PointsRow.matchesCond]

theorem applyDelete_history_id (db : DB) (i : Nat) :
    applyDelete db ⟨"history", "delete", .nodata, [("id", .vint (Nat.cast i))]⟩ =
      { db with history := db.history.filter fun e => !(e.id == i) } := by
  unfold applyDelete
  simp [HistoryRow.matchesCond]

theorem applyDelete_points_neqdict (db : DB) :
    applyDelete db ⟨"points", "delete", .nodata, [("username", .vdict [("neq", "")])]⟩
      = db := by
  unfold applyDelete
  simp [PointsRow.matchesCond]

theorem applyDelete_history_neqdict (db : DB) :
    applyDelete db ⟨"history", "delete", .nodata, [("username", .vdict [("neq", "")])]⟩
      = db := by
  unfold applyDelete
  simp [HistoryRow.matchesCond]

/-- What one `update_points` call does to the store: the points
insert-or-update and the history append are executed and persist, the
counters advance, `match_results` is untouched, and the call raises
`DatabaseError` because the third staged action `'upsert'` is not
recognised by `execute_in_transaction`. -/
theorem update_points_eq (db : DB) (u : String) (p m : Int) (b : String) :
    update_points db u p m b =
      ({ db with
          points := awardPoints db.points (normalizeUsername u) p,
          history := db.history
            ++ [⟨db.nextId, normalizeUsername u, p, m, b, db.clock⟩],
          nextId := db.nextId + 1,
          clock := db.clock + 1 },
        .error upsertFailureMsg) := by
  unfold update_points awardPoints upsertFailureMsg
  cases hfind : db.points.find? (fun r => r.username == normalizeUsername u) with
  | none => simp [execute_in_transaction, applyInsert, hfind]
  | some r =>
      simp [execute_in_transaction, applyInsert, applyUpdate_points_username, hfind]

/-- `clear_points` leaves the store exactly as it was and reports
success: its two staged deletes filter on
`username == {'neq': ''}`, which no row satisfies, and no
`match_results` operation is staged at all. -/
theorem clear_points_eq (db : DB) : clear_points db = (db, .ok ()) := by
  unfold clear_points
  simp [execute_in_transaction, applyDelete_points_neqdict, applyDelete_history_neqdict]

/-! ### Lookup and sum lemmas for the derived views -/

theorem find?_map_comm {α : Type} (f : α → α) (p : α → Bool)
    (hf : ∀ a, p (f a) = p a) (l : List α) :
    (l.map f).find? p = (l.find? p).map f := by
  induction l with
  | nil => rfl
  | cons a t ih =>
    simp only [List.map_cons]
    cases hp : p a with
    | true =>
        rw [List.find?_cons_of_pos _ (show p (f a) by rw [hf]; exact hp),
          List.find?_cons_of_pos _ (show p a from hp)]
        rfl
    | false =>
        rw [List.find?_cons_of_neg _ (by simp [hf, hp]),
          List.find?_cons_of_neg _ (by simp [hp]), ih]

theorem setPoints_preserves_username (un : String) (v : Int) (a : PointsRow) :
    ((fun s : PointsRow =>
        if s.username == un then { s with user_points := v } else s) a).username
      = a.username := by
  by_cases h : a.username = un <;> simp [h]

theorem find?_map_setPoints (l : List PointsRow) (un u' : String) (v : Int) :
    (l.map fun s => if s.username == un then { s with user_points := v } else s).find?
        (fun r => r.username == u') =
      (l.find? (fun r => r.username == u')).map
        (fun s => if s.username == un then { s with user_points := v } else s) := by
  apply find?_map_comm
  intro a
  rw [setPoints_preserves_username]

theorem pointsBalance_award_self (l : List PointsRow) (un : String) (p : Int) :
    pointsBalance (awardPoints l un p) un = pointsBalance l un + p := by
  unfold awardPoints pointsBalance
  cases hf : l.find? (fun r => r.username == un) with
  | none => simp [hf]
  | some r =>
      have hre : r.username = un := by simpa using List.find?_some hf
      rw [find?_map_setPoints, hf]
      simp [hre]

theorem pointsBalance_award_ne (l : List PointsRow) (un u' : String) (p : Int)
    (h : u' ≠ un) :
    pointsBalance (awardPoints l un p) u' = pointsBalance l u' := by
  unfold awardPoints pointsBalance
  cases hf : l.find? (fun r => r.username == un) with
  | none =>
      have hne : (un == u') = false := by
        simp only [beq_eq_false_iff_ne]
        exact fun hh => h hh.symm
      simp [hne]
  | some r =>
      rw [find?_map_setPoints]
      cases hfe : l.find? (fun r => r.username == u') with
      | none => rfl
      | some r' =>
          have hr' : (r'.username == u') = true := by simpa using List.find?_some hfe
          have : ¬ (r'.username = un) := by
            intro hh
            exact h ((beq_iff_eq.mp hr').symm.trans hh)
          simp [this]

theorem subtractPoints_of_none (l : List PointsRow) (un : String) (p : Int)
    (hf : l.find? (fun r => r.username == un) = none) :
    subtractPoints l un p = l := by
  unfold subtractPoints
  rw [hf]

theorem pointsBalance_subtract_self (l : List PointsRow) (un : String) (p : Int)
    (hf : (l.find? (fun r => r.username == un)).isSome) :
    pointsBalance (subtractPoints l un p) un = pointsBalance l un - p := by
  unfold subtractPoints pointsBalance
  cases hfe : l.find? (fun r => r.username == un) with
  | none => rw [hfe] at hf; simp at hf
  | some r =>
      have hre : r.username = un := by simpa using List.find?_some hfe
      rw [find?_map_setPoints, hfe]
      simp [hre]

theorem pointsBalance_subtract_ne (l : List PointsRow) (un u' : String) (p : Int)
    (h : u' ≠ un) :
    pointsBalance (subtractPoints l un p) u' = pointsBalance l u' := by
  unfold subtractPoints pointsBalance
  cases hfe : l.find? (fun r => r.username == un) with
  | none => rfl
  | some r =>
      rw [find?_map_setPoints]
      cases hfe2 : l.find? (fun r => r.username == u') with
      | none => rfl
      | some r2 =>
          have hr2 : (r2.username == u') = true := by simpa using List.find?_some hfe2
          have hnu : ¬ (r2.username = un) := fun hh => h ((beq_iff_eq.mp hr2).symm.trans hh)
          simp [hnu]

theorem usernames_map_setPoints (l : List PointsRow) (un : String) (v : Int) :
    ((l.map fun s => if s.username == un then { s with user_points := v } else s).map
      (fun r => r.username)) = l.map (fun r => r.username) := by
  rw [List.map_map]
  apply List.map_congr_left
  intro a ha
  exact setPoints_preserves_username un v a

theorem usernames_awardPoints (l : List PointsRow) (un : String) (p : Int) :
    (awardPoints l un p).map (fun r => r.username) =
      (match l.find? (fun r => r.username == un) with
       | none => l.map (fun r => r.username) ++ [un]
       | some _ => l.map (fun r => r.username)) := by
  unfold awardPoints
  cases hf : l.find? (fun r => r.username == un) with
  | none => simp
  | some r => exact usernames_map_setPoints l un _

theorem usernames_subtractPoints (l : List PointsRow) (un : String) (p : Int) :
    (subtractPoints l un p).map (fun r => r.username) = l.map (fun r => r.username) := by
  unfold subtractPoints
  cases hf : l.find? (fun r => r.username == un) with
  | none => rfl
  | some r => exact usernames_map_setPoints l un _

theorem find?_isSome_iff_mem_usernames (l : List PointsRow) (u : String) :
    (l.find? (fun r => r.username == u)).isSome ↔ u ∈ l.map (fun r => r.username) := by
  rw [List.find?_isSome]
  simp only [List.mem_map, beq_iff_eq]

theorem historySum_cons (a : HistoryRow) (t : List HistoryRow) (u : String) :
    historySum (a :: t) u =
      (if a.username == u then a.points else 0) + historySum t u := by
  unfold historySum
  by_cases h : a.username = u
  · simp [h]
  · simp [h]

theorem historySum_append_one (l : List HistoryRow) (e : HistoryRow) (u : String) :
    historySum (l ++ [e]) u =
      historySum l u + (if e.username == u then e.points else 0) := by
  unfold historySum
  rw [List.filter_append]
  by_cases h : e.username = u
  · simp [h]
  · simp [h]

theorem historySum_filter_ne_id (l : List HistoryRow) (e : HistoryRow) (u : String)
    (hmem : e ∈ l) (hnodup : (l.map (fun x => x.id)).Nodup) :
    historySum (l.filter fun x => !(x.id == e.id)) u =
      historySum l u - (if e.username == u then e.points else 0) := by
  induction l with
  | nil => cases hmem
  | cons a t ih =>
    rw [List.map_cons, List.nodup_cons] at hnodup
    rw [List.filter_cons]
    rcases List.mem_cons.mp hmem with he | he
    · rw [he]
      have hcond : ¬ ((!(a.id == a.id)) = true) := by simp
      rw [if_neg hcond, historySum_cons]
      have hkeep : t.filter (fun x => !(x.id == a.id)) = t := by
        apply List.filter_eq_self.mpr
        intro x hx
        have hxid : x.id ≠ a.id := fun hid => hnodup.1 (by
          rw [← hid]
          exact List.mem_map_of_mem (fun y => y.id) hx)
        simp [hxid]
      rw [hkeep]
      ring
    · have hne2 : a.id ≠ e.id := fun hid => hnodup.1 (by
        rw [hid]
        exact List.mem_map_of_mem (fun y => y.id) he)
      have hcond : ((!(a.id == e.id))) = true := by simp [hne2]
      rw [if_pos hcond, historySum_cons, historySum_cons, ih he hnodup.2]
      ring

/-! ### Lemmas about the `order('timestamp', desc=True).limit(1)` pick -/

theorem latestByTimestamp_eq_none_iff (l : List HistoryRow) :
    latestByTimestamp l = none ↔ l = [] := by
  cases l with
  | nil => simp [latestByTimestamp]
  | cons a t =>
    simp only [latestByTimestamp]
    cases latestByTimestamp t with
    | none => simp
    | some m =>
      by_cases h : a.timestamp ≤ m.timestamp <;> simp [h]

theorem latestByTimestamp_mem (l : List HistoryRow) (e : HistoryRow)
    (h : latestByTimestamp l = some e) : e ∈ l := by
  induction l with
  | nil => cases h
  | cons a t ih =>
    cases hl : latestByTimestamp t with
    | none =>
        simp only [latestByTimestamp, hl] at h
        cases h
        exact List.mem_cons_self _ _
    | some m =>
        simp only [latestByTimestamp, hl] at h
        by_cases hts : a.timestamp ≤ m.timestamp
        · rw [if_pos hts] at h
          cases h
          exact List.mem_cons_of_mem _ (ih hl)
        · rw [if_neg hts] at h
          cases h
          exact List.mem_cons_self _ _

theorem latestByTimestamp_concat (l : List HistoryRow) (e : HistoryRow)
    (hts : ∀ x ∈ l, x.timestamp < e.timestamp) :
    latestByTimestamp (l ++ [e]) = some e := by
  induction l with
  | nil => simp [latestByTimestamp]
  | cons a t ih =>
    have ht : latestByTimestamp (t ++ [e]) = some e :=
      ih (fun x hx => hts x (List.mem_cons_of_mem _ hx))
    rw [List.cons_append]
    simp only [latestByTimestamp, ht]
    rw [if_pos (le_of_lt (hts a (List.mem_cons_self _ _)))]

theorem latestByTimestamp_pairwise (l : List HistoryRow)
    (hp : l.Pairwise (fun a b => a.timestamp < b.timestamp)) (hne : l ≠ []) :
    latestByTimestamp l = some (l.getLast hne) := by
  have hdecomp := List.dropLast_append_getLast hne
  have hts : ∀ x ∈ l.dropLast, x.timestamp < (l.getLast hne).timestamp := by
    intro x hx
    have hp' := hdecomp ▸ hp
    rcases List.pairwise_append.mp hp' with ⟨-, -, hrel⟩
    exact hrel x hx _ (List.mem_singleton_self _)
  calc latestByTimestamp l
      = latestByTimestamp (l.dropLast ++ [l.getLast hne]) := by rw [hdecomp]
    _ = some (l.getLast hne) := latestByTimestamp_concat _ _ hts

/-- What one `undo_last_points_update` call does to the store when the
history is non-empty: the balance row of the selected entry's user (if
any) is decremented by the entry's delta, the entry is deleted by id,
`match_results` is untouched, and the call reports success. -/
theorem undo_eq (db : DB) (e : HistoryRow)
    (hl : latestByTimestamp db.history = some e) :
    undo_last_points_update db =
      ({ db with
          points := subtractPoints db.points e.username e.points,
          history := db.history.filter fun h => !(h.id == e.id) },
        .ok (true, "Undid " ++ toString e.points ++ " point(s) for " ++ e.username)) := by
  unfold undo_last_points_update subtractPoints
  rw [hl]
  cases hfind : db.points.find? (fun r => r.username == e.username) with
  | none =>
      simp [execute_in_transaction, applyDelete_history_id, hfind]
  | some r =>
      simp [execute_in_transaction, applyDelete_history_id,
        applyUpdate_points_username, hfind]

/-! ### Reachable ledger states and the balance invariant -/

/-- States reachable from the empty store by any sequence of
`update_points` (award), `undo_last_points_update` (undo_last) and
`clear_points` (clear_all) calls, keeping the store each call leaves
behind whether or not the call raised. -/
inductive Reachable : DB → Prop where
  | empty : Reachable DB.empty
  | award (db : DB) (username : String) (points match_number : Int)
      (updated_by : String) :
      Reachable db → Reachable (update_points db username points match_number updated_by).1
  | undo (db : DB) : Reachable db → Reachable (undo_last_points_update db).1
  | clear (db : DB) : Reachable db → Reachable (clear_points db).1

/-- The inductive invariant: usernames of the points table are
distinct, history ids are store-assigned (bounded by `nextId` and
distinct), every history row's user still has a points row, and every
balance equals the sum of that user's surviving history deltas. -/
structure Inv (db : DB) : Prop where
  keysNodup : (db.points.map (fun r => r.username)).Nodup
  idsLt : ∀ e ∈ db.history, e.id < db.nextId
  idsNodup : (db.history.map (fun e => e.id)).Nodup
  rowExists : ∀ e ∈ db.history, e.username ∈ db.points.map (fun r => r.username)
  balance : ∀ u, balanceOf db u = histSum db u

theorem Inv.award_step (db : DB) (u : String) (p m : Int) (b : String)
    (h : Inv db) : Inv (update_points db u p m b).1 := by
  rw [update_points_eq]
  refine ⟨?_, ?_, ?_, ?_, ?_⟩
  · show ((awardPoints db.points (normalizeUsername u) p).map
      (fun r => r.username)).Nodup
    rw [usernames_awardPoints]
    cases hf : db.points.find? (fun r => r.username == normalizeUsername u) with
    | none =>
        rw [List.nodup_append]
        refine ⟨h.keysNodup, List.nodup_singleton _, ?_⟩
        intro x hx hx'
        rw [List.mem_singleton] at hx'
        subst hx'
        have : (db.points.find? (fun r => r.username == normalizeUsername u)).isSome :=
          (find?_isSome_iff_mem_usernames _ _).mpr hx
        rw [hf] at this
        simp at this
    | some r => exact h.keysNodup
  · intro e he
    rcases List.mem_append.mp he with he | he
    · exact Nat.lt_succ_of_lt (h.idsLt e he)
    · rw [List.mem_singleton] at he
      subst he
      exact Nat.lt_succ_self _
  · rw [List.map_append, List.map_singleton, List.nodup_append]
    refine ⟨h.idsNodup, List.nodup_singleton _, ?_⟩
    intro x hx hx'
    rw [List.mem_singleton] at hx'
    subst hx'
    rcases List.mem_map.mp hx with ⟨e, he, hid⟩
    exact absurd hid (Nat.ne_of_lt (h.idsLt e he))
  · intro e he
    show e.username ∈ (awardPoints db.points (normalizeUsername u) p).map
      (fun r => r.username)
    rw [usernames_awardPoints]
    rcases List.mem_append.mp he with he | he
    · have hmem := h.rowExists e he
      cases hf : db.points.find? (fun r => r.username == normalizeUsername u) with
      | none => exact List.mem_append_left _ hmem
      | some r => exact hmem
    · rw [List.mem_singleton] at he
      subst he
      cases hf : db.points.find? (fun r => r.username == normalizeUsername u) with
      | none => exact List.mem_append_right _ (List.mem_singleton_self _)
      | some r =>
          exact (find?_isSome_iff_mem_usernames _ _).mp (by rw [hf]; rfl)
  · intro u'
    show pointsBalance (awardPoints db.points (normalizeUsername u) p) u' =
      historySum (db.history ++ [⟨db.nextId, normalizeUsername u, p, m, b, db.clock⟩]) u'
    rw [historySum_append_one]
    by_cases hu : u' = normalizeUsername u
    · subst hu
      rw [pointsBalance_award_self]
      have hb := h.balance (normalizeUsername u)
      unfold balanceOf histSum at hb
      rw [hb]
      simp
    · rw [pointsBalance_award_ne _ _ _ _ hu]
      have hne : (normalizeUsername u == u') = false := by
        simp only [beq_eq_false_iff_ne]
        exact fun hh => hu hh.symm
      rw [hne]
      have hb := h.balance u'
      unfold balanceOf histSum at hb
      rw [hb]
      simp

theorem Inv.undo_step (db : DB) (h : Inv db) :
    Inv (undo_last_points_update db).1 := by
  cases hl : latestByTimestamp db.history with
  | none =>
      unfold undo_last_points_update
      rw [hl]
      exact h
  | some e =>
      rw [undo_eq db e hl]
      have hmem := latestByTimestamp_mem _ _ hl
      have hrow : e.username ∈ db.points.map (fun r => r.username) :=
        h.rowExists e hmem
      have hsome : (db.points.find? (fun r => r.username == e.username)).isSome :=
        (find?_isSome_iff_mem_usernames _ _).mpr hrow
      refine ⟨?_, ?_, ?_, ?_, ?_⟩
      · show ((subtractPoints db.points e.username e.points).map
          (fun r => r.username)).Nodup
        rw [usernames_subtractPoints]
        exact h.keysNodup
      · intro x hx
        exact h.idsLt x (List.mem_of_mem_filter hx)
      · show ((db.history.filter fun x => !(x.id == e.id)).map (fun e => e.id)).Nodup
        exact h.idsNodup.sublist
          ((List.filter_sublist db.history).map (fun x : HistoryRow => x.id))
      · intro x hx
        show x.username ∈ (subtractPoints db.points e.username e.points).map
          (fun r => r.username)
        rw [usernames_subtractPoints]
        exact h.rowExists x (List.mem_of_mem_filter hx)
      · intro u'
        show pointsBalance (subtractPoints db.points e.username e.points) u' =
          historySum (db.history.filter fun h => !(h.id == e.id)) u'
        rw [historySum_filter_ne_id _ e _ hmem h.idsNodup]
        by_cases hu : u' = e.username
        · subst hu
          rw [pointsBalance_subtract_self _ _ _ hsome]
          have hb := h.balance e.username
          unfold balanceOf histSum at hb
          rw [hb]
          simp
        · rw [pointsBalance_subtract_ne _ _ _ _ hu]
          have hne : (e.username == u') = false := by
            simp only [beq_eq_false_iff_ne]
            exact fun hh => hu hh.symm
          rw [hne]
          have hb := h.balance u'
          unfold balanceOf histSum at hb
          rw [hb]
          simp

theorem Inv.clear_step (db : DB) (h : Inv db) : Inv (clear_points db).1 := by
  rw [clear_points_eq]
  exact h

theorem reachable_inv (db : DB) (h : Reachable db) : Inv db := by
  induction h with
  | empty =>
      refine ⟨?_, ?_, ?_, ?_, ?_⟩ <;>
        simp [DB.empty, balanceOf, histSum, pointsBalance, historySum]
  | award db u p m b _ ih => exact Inv.award_step db u p m b ih
  | undo db _ ih => exact Inv.undo_step db ih
  | clear db _ ih => exact Inv.clear_step db ih

/-! ### Claim theorems -/

/-- C1: the spec claims every `update_points` (award) call is atomic:
on any step failure all prior steps are rolled back, leaving no partial
state. The code has no rollback: from the empty store, the call
`update_points("alice", 1, 1, "admin")` raises `DatabaseError` (its
staged `'upsert'` step is rejected), yet the committed balance write
and history insert persist and no `match_results` row exists, exactly
the partial state the claim rules out. -/
theorem award_partial_state_persists :
    (update_points DB.empty "alice" 1 1 "admin").2 = Except.error upsertFailureMsg ∧
    (update_points DB.empty "alice" 1 1 "admin").1.points = [⟨"<@alice>", 1⟩] ∧
    (update_points DB.empty "alice" 1 1 "admin").1.history =
      [⟨0, "<@alice>", 1, 1, "admin", 0⟩] ∧
    (update_points DB.empty "alice" 1 1 "admin").1.match_results = [] :=
  ⟨rfl, by decide, by decide, by decide⟩

/-- C2: for every store and arguments, `update_points` raises
`DatabaseError`: the third staged operation's action `'upsert'` is not
recognised by `execute_in_transaction`, which raises `ValueError`
converted to `TransactionError`, and the failure happens after the
points write and the history insert executed: both stay committed (the
balance moved by `points` and a new history row was appended) while no
`match_results` row is written. -/
theorem update_points_always_fails (db : DB) (username : String)
    (points match_number : Int) (updated_by : String) :
    (update_points db username points match_number updated_by).2 =
      Except.error upsertFailureMsg ∧
    (update_points db username points match_number updated_by).1.match_results =
      db.match_results ∧
    (update_points db username points match_number updated_by).1.history =
      db.history ++ [⟨db.nextId, normalizeUsername username, points, match_number,
        updated_by, db.clock⟩] ∧
    balanceOf (update_points db username points match_number updated_by).1
        (normalizeUsername username) =
      balanceOf db (normalizeUsername username) + points := by
  rw [update_points_eq]
  exact ⟨rfl, rfl, rfl, pointsBalance_award_self db.points (normalizeUsername username) points⟩

/-- C3: for every actor, after any sequence of award
(`update_points`), undo (`undo_last_points_update`) and clear
(`clear_points`) operations from the empty store, the stored balance
equals the sum of the deltas of that actor's surviving history
entries. -/
theorem reachable_balance_eq_histSum (db : DB) (h : Reachable db) (u : String) :
    balanceOf db u = histSum db u :=
  (reachable_inv db h).balance u

theorem reachable_balance_eq_histSum_witness :
    Reachable (update_points DB.empty "u1" 5 1 "admin").1 ∧
    balanceOf (update_points DB.empty "u1" 5 1 "admin").1 "<@u1>" =
      histSum (update_points DB.empty "u1" 5 1 "admin").1 "<@u1>" :=
  ⟨Reachable.award DB.empty "u1" 5 1 "admin" Reachable.empty,
   reachable_balance_eq_histSum _
     (Reachable.award DB.empty "u1" 5 1 "admin" Reachable.empty) "<@u1>"⟩

/-- A store holding one balance row, one history row and one match
result, used to evaluate `clear_points` on non-empty tables. -/
def db5 : DB :=
  ⟨[⟨"<@1>", 5⟩], [⟨0, "<@1>", 5, 3, "adm", 0⟩], [⟨3, "<@1>", 0⟩], 1, 1⟩

/-- C5: the spec claims `clear_points` empties all three stores. The
code stages deletes only on `points` and `history` (never on
`match_results`), and each delete's condition compares `username` for
equality against the dict `{'neq': ''}`, which no row satisfies: on a
store with one row in every table, `clear_points` reports success and
leaves every table exactly as it was, all three non-empty. -/
theorem clear_points_clears_nothing :
    clear_points db5 = (db5, Except.ok ()) ∧
    db5.points ≠ [] ∧ db5.history ≠ [] ∧ db5.match_results ≠ [] :=
  ⟨clear_points_eq db5, by decide, by decide, by decide⟩

/-- C10: `get_points` checks `if user_id:`, so the falsy ids `None`
and `0` both take the all-users branch and return the full
actor-to-points mapping, while a nonzero id whose `<@id>` username has
no points row returns the integer 0. -/
theorem get_points_falsy (db : DB) (uid : Int) (hu : uid ≠ 0)
    (hnone : db.points.find?
      (fun r => r.username == "<@" ++ toString uid ++ ">") = none) :
    get_points db none = Sum.inl (allPoints db) ∧
    get_points db (some 0) = Sum.inl (allPoints db) ∧
    get_points db (some uid) = Sum.inr 0 := by
  refine ⟨rfl, by simp [get_points], ?_⟩
  simp only [get_points]
  rw [if_pos hu, hnone]

theorem get_points_falsy_witness :
    (5 : Int) ≠ 0 ∧
    DB.empty.points.find?
      (fun r => r.username == "<@" ++ toString (5 : Int) ++ ">") = none ∧
    (get_points DB.empty none = Sum.inl (allPoints DB.empty) ∧
     get_points DB.empty (some 0) = Sum.inl (allPoints DB.empty) ∧
     get_points DB.empty (some 5) = Sum.inr 0) :=
  ⟨by decide, rfl, get_points_falsy DB.empty 5 (by decide) rfl⟩

/-- C4 counterexample: `award("A", 5, 1, "R")` followed immediately by
`undo_last` does not restore the exact pre-award state: from the empty
store the award creates no `match_results` entry at all (so there is no
MatchResult for the undo to delete), and after the undo the points
table still holds a row mapping `<@A>` to 0 whereas the pre-award table
was empty. -/
theorem undo_not_exact_inverse :
    (update_points DB.empty "A" 5 1 "R").1.match_results = [] ∧
    (undo_last_points_update (update_points DB.empty "A" 5 1 "R").1).1.points =
      [⟨"<@A>", 0⟩] ∧
    (undo_last_points_update (update_points DB.empty "A" 5 1 "R").1).1 ≠ DB.empty :=
  ⟨by decide, by decide, by decide⟩

/-- C4 amended: for any store with store-assigned counters (all history
ids below `nextId`, all timestamps below the clock), award followed
immediately by undo restores the awarded actor's readable balance and
restores the history log exactly; the match-result index is untouched
by both calls, because the award's `match_results` upsert never
executes (the transaction fails first) and the undo never stages a
`match_results` delete. The points table may keep a zero-valued row for
the actor rather than returning to rowlessness. -/
theorem undo_after_award (db : DB) (u : String) (p m : Int) (b : String)
    (hid : ∀ e ∈ db.history, e.id < db.nextId)
    (hts : ∀ e ∈ db.history, e.timestamp < db.clock) :
    balanceOf (undo_last_points_update (update_points db u p m b).1).1
        (normalizeUsername u) = balanceOf db (normalizeUsername u) ∧
    (undo_last_points_update (update_points db u p m b).1).1.history = db.history ∧
    (update_points db u p m b).1.match_results = db.match_results ∧
    (undo_last_points_update (update_points db u p m b).1).1.match_results =
      db.match_results := by
  have h1 : (update_points db u p m b).1 = { db with
      points := awardPoints db.points (normalizeUsername u) p,
      history := db.history ++ [⟨db.nextId, normalizeUsername u, p, m, b, db.clock⟩],
      nextId := db.nextId + 1, clock := db.clock + 1 } := by
    rw [update_points_eq]
  have hlat : latestByTimestamp ((update_points db u p m b).1).history =
      some ⟨db.nextId, normalizeUsername u, p, m, b, db.clock⟩ := by
    rw [h1]
    exact latestByTimestamp_concat _ _ hts
  have h2 : (undo_last_points_update (update_points db u p m b).1).1 =
      { (update_points db u p m b).1 with
        points := subtractPoints ((update_points db u p m b).1).points
          (normalizeUsername u) p,
        history := ((update_points db u p m b).1).history.filter
          (fun x => !(x.id == db.nextId)) } := by
    rw [undo_eq _ _ hlat]
  have hrow : (((update_points db u p m b).1).points.find?
      (fun r => r.username == normalizeUsername u)).isSome := by
    rw [h1]
    show ((awardPoints db.points (normalizeUsername u) p).find?
      (fun r => r.username == normalizeUsername u)).isSome
    rw [find?_isSome_iff_mem_usernames, usernames_awardPoints]
    cases hf : db.points.find? (fun r => r.username == normalizeUsername u) with
    | none => exact List.mem_append_right _ (List.mem_singleton_self _)
    | some r =>
        exact (find?_isSome_iff_mem_usernames _ _).mp (by rw [hf]; rfl)
  refine ⟨?_, ?_, ?_, ?_⟩
  · rw [h2]
    show pointsBalance (subtractPoints ((update_points db u p m b).1).points
      (normalizeUsername u) p) (normalizeUsername u) = balanceOf db (normalizeUsername u)
    rw [pointsBalance_subtract_self _ _ _ hrow, h1]
    show pointsBalance (awardPoints db.points (normalizeUsername u) p)
      (normalizeUsername u) - p = balanceOf db (normalizeUsername u)
    rw [pointsBalance_award_self, add_sub_cancel_right]
    rfl
  · rw [h2, h1]
    show (db.history ++ [(⟨db.nextId, normalizeUsername u, p, m, b, db.clock⟩ :
        HistoryRow)]).filter (fun x => !(x.id == db.nextId)) = db.history
    rw [List.filter_append]
    have hold : db.history.filter (fun x => !(x.id == db.nextId)) = db.history :=
      List.filter_eq_self.mpr (fun x hx => by simp [Nat.ne_of_lt (hid x hx)])
    have hnew : ([⟨db.nextId, normalizeUsername u, p, m, b, db.clock⟩] :
        List HistoryRow).filter (fun x => !(x.id == db.nextId)) = [] := by simp
    rw [hold, hnew, List.append_nil]
  · rw [h1]
  · rw [h2, h1]

theorem undo_after_award_witness :
    (∀ e ∈ DB.empty.history, e.id < DB.empty.nextId) ∧
    (∀ e ∈ DB.empty.history, e.timestamp < DB.empty.clock) ∧
    (balanceOf (undo_last_points_update (update_points DB.empty "A" 5 1 "R").1).1
        (normalizeUsername "A") = balanceOf DB.empty (normalizeUsername "A") ∧
     (undo_last_points_update (update_points DB.empty "A" 5 1 "R").1).1.history =
       DB.empty.history ∧
     (update_points DB.empty "A" 5 1 "R").1.match_results = DB.empty.match_results ∧
     (undo_last_points_update (update_points DB.empty "A" 5 1 "R").1).1.match_results =
       DB.empty.match_results) :=
  ⟨by simp [DB.empty], by simp [DB.empty],
   undo_after_award DB.empty "A" 5 1 "R" (by simp [DB.empty]) (by simp [DB.empty])⟩

/-- The `!win` handler's reply and non-mutation when validation fails. -/
theorem winCommand_invalid (db : DB) (u : String) (m : Int) (isAdmin : Bool)
    (sched : Int → Option Nat) (today : Nat) (a : String)
    (hv : (validate_input u m).1 = false) :
    winCommand db u m isAdmin sched today a = (db, (validate_input u m).2) := by
  simp only [winCommand]
  rw [if_pos hv]

/-- The schedule used in the duplicate-claim scenario: match 1 is
scheduled on day 10, nothing else is scheduled. -/
def sched6 : Int → Option Nat := fun n => if n = 1 then some 10 else none

/-- A store in which match 1 already has a recorded MatchResult. -/
def db6 : DB := ⟨[], [], [⟨1, "<@2>", 0⟩], 0, 0⟩

/-- C6 counterexample: with a MatchResult already recorded for match 1
(`db6`) and a non-admin `!win <@3> 1` on the scheduled day, the handler
does not reject the request: it runs `update_points`, which mutates the
points and history stores (before its own transaction failure), so the
claimed "rejected ... and no store is mutated" is false. -/
theorem duplicate_match_not_rejected :
    (winCommand db6 "<@3>" 1 false sched6 10 "sys2").1.points ≠ db6.points ∧
    (winCommand db6 "<@3>" 1 false sched6 10 "sys2").1.history ≠ db6.history :=
  ⟨by decide, by decide⟩

/-- C6 amended: the `!win` handler performs no duplicate-match check at
all: for every store, with or without an existing MatchResult for the
match, a non-admin request that passes input validation and the
schedule-date gate goes straight to `update_points`; the reply is the
generic update-error message (every award's transaction fails at its
upsert step) and the points and history stores are mutated rather than
left untouched. -/
theorem win_no_duplicate_check (db : DB) (u a : String) (m : Int)
    (sched : Int → Option Nat) (today : Nat)
    (hv : (validate_input u m).1 = true) (hs : sched m = some today) :
    winCommand db u m false sched today a =
      ((update_points db u 1 m a).1,
        "Error updating points. Please try again later.") ∧
    (update_points db u 1 m a).1.history ≠ db.history := by
  constructor
  · simp only [winCommand]
    rw [hv, hs, update_points_eq]
    simp
  · rw [update_points_eq]
    intro heq
    have hlen := congrArg List.length heq
    simp at hlen

theorem win_no_duplicate_check_witness :
    (validate_input "<@3>" 1).1 = true ∧ sched6 1 = some 10 ∧
    (winCommand db6 "<@3>" 1 false sched6 10 "sys2" =
      ((update_points db6 "<@3>" 1 1 "sys2").1,
        "Error updating points. Please try again later.") ∧
     (update_points db6 "<@3>" 1 1 "sys2").1.history ≠ db6.history) :=
  ⟨by decide, by decide,
   win_no_duplicate_check db6 "<@3>" "sys2" 1 sched6 10 (by decide) (by decide)⟩

/-- C7 counterexample: mention-form usernames skip the match-number
bound entirely: `validate_input "<@123>" 99999` succeeds even though
99999 exceeds `Config.maxMatchNumber`, and an admin `!win <@123> 99999`
proceeds to `update_points`, appending a history row: the award is
neither rejected by validation nor left without store writes. -/
theorem mention_bypasses_match_validation :
    validate_input "<@123>" 99999 = (true, "") ∧
    (winCommand DB.empty "<@123>" 99999 true (fun _ => none) 0 "adm").1.history ≠ [] :=
  ⟨by decide, by decide⟩

/-- C7 amended: for plain (non-mention) usernames the claim holds: any
match number above `Config.maxMatchNumber` makes `validate_input`
return failure, and the `!win` handler replies with the validation
message and leaves the store untouched, before any write. Mention-form
usernames bypass the match-number validation entirely (see the
counterexample). -/
theorem plain_username_match_validation (db : DB) (u a : String) (m : Int)
    (isAdmin : Bool) (sched : Int → Option Nat) (today : Nat)
    (hm : is_mention u = false) (hgt : Config.maxMatchNumber < m) :
    (validate_input u m).1 = false ∧
    (winCommand db u m isAdmin sched today a).1 = db := by
  have hval : (validate_input u m).1 = false := by
    unfold validate_input
    rw [hm]
    rw [if_neg (by simp : ¬ (false = true))]
    split_ifs with h1 h2
    · rfl
    · rfl
    · exact absurd (by simp [hgt]) h2
  refine ⟨hval, ?_⟩
  rw [winCommand_invalid db u m isAdmin sched today a hval]

theorem plain_username_match_validation_witness :
    is_mention "bob" = false ∧ Config.maxMatchNumber < 99999 ∧
    ((validate_input "bob" 99999).1 = false ∧
     (winCommand DB.empty "bob" 99999 false (fun _ => none) 0 "adm").1 = DB.empty) :=
  ⟨by decide, by decide,
   plain_username_match_validation DB.empty "bob" "adm" 99999 false
     (fun _ => none) 0 (by decide) (by decide)⟩

/-- In a history whose ids strictly increase along the log, filtering
out the last entry's id removes exactly the last entry. -/
theorem filter_ne_last_id (l : List HistoryRow) (hne : l ≠ [])
    (hp : l.Pairwise (fun x y => x.id < y.id)) :
    l.filter (fun x => !(x.id == (l.getLast hne).id)) = l.dropLast := by
  obtain ⟨e, he⟩ : ∃ e, l.getLast hne = e := ⟨_, rfl⟩
  rw [he]
  have hdecomp : l.dropLast ++ [e] = l := by
    rw [← he]
    exact List.dropLast_append_getLast hne
  have hlt : ∀ x ∈ l.dropLast, x.id < e.id := by
    have hp2 : (l.dropLast ++ [e]).Pairwise (fun x y => x.id < y.id) := by
      rw [hdecomp]; exact hp
    rcases List.pairwise_append.mp hp2 with ⟨-, -, hrel⟩
    exact fun x hx => hrel x hx e (List.mem_singleton_self _)
  conv_lhs => rw [← hdecomp]
  rw [List.filter_append]
  have hold : l.dropLast.filter (fun x => !(x.id == e.id)) = l.dropLast :=
    List.filter_eq_self.mpr (fun x hx => by simp [Nat.ne_of_lt (hlt x hx)])
  have hlastf : ([e] : List HistoryRow).filter (fun x => !(x.id == e.id)) = [] := by
    simp
  rw [hold, hlastf, List.append_nil]

/-- C8 amended: for a store whose history carries store-assigned ids
and timestamps (both strictly increasing along the log), undo on a
non-empty history reverses exactly the last appended entry, which has
the maximum id (the code selects it as the maximum-timestamp row): the
entry is deleted, the user's balance is decremented by its delta when a
points row exists, `match_results` is untouched, and the call reports
success. On an empty history it returns `(False, "No points to undo")`
(not "nothing to undo") without raising and without mutating any
store. -/
theorem undo_reverses_last (db : DB)
    (hwf : db.history.Pairwise (fun x y => x.id < y.id ∧ x.timestamp < y.timestamp)) :
    (db.history = [] →
      undo_last_points_update db = (db, Except.ok (false, "No points to undo"))) ∧
    (∀ hne : db.history ≠ [],
      (∀ x ∈ db.history, x.id ≤ (db.history.getLast hne).id) ∧
      (undo_last_points_update db).1.history = db.history.dropLast ∧
      (undo_last_points_update db).1.match_results = db.match_results ∧
      ((db.points.find? (fun r =>
          r.username == (db.history.getLast hne).username)).isSome →
        balanceOf (undo_last_points_update db).1 (db.history.getLast hne).username =
          balanceOf db (db.history.getLast hne).username -
            (db.history.getLast hne).points) ∧
      (undo_last_points_update db).2 = Except.ok (true,
        "Undid " ++ toString (db.history.getLast hne).points ++ " point(s) for "
          ++ (db.history.getLast hne).username)) := by
  constructor
  · intro h
    have hnone : latestByTimestamp db.history = none := by rw [h]; rfl
    unfold undo_last_points_update
    rw [hnone]
  · intro hne
    have hts : db.history.Pairwise (fun x y => x.timestamp < y.timestamp) :=
      hwf.imp (fun h => h.2)
    have hids : db.history.Pairwise (fun x y => x.id < y.id) :=
      hwf.imp (fun h => h.1)
    have hlat := latestByTimestamp_pairwise db.history hts hne
    have hrec := undo_eq db _ hlat
    have hdecomp := List.dropLast_append_getLast hne
    refine ⟨?_, ?_, ?_, ?_, ?_⟩
    · intro x hx
      have hp2 : (db.history.dropLast ++ [db.history.getLast hne]).Pairwise
          (fun x y => x.id < y.id) := by
        rw [hdecomp]; exact hids
      rw [← hdecomp] at hx
      rcases List.mem_append.mp hx with hx | hx
      · rcases List.pairwise_append.mp hp2 with ⟨-, -, hrel⟩
        exact le_of_lt (hrel x hx _ (List.mem_singleton_self _))
      · rw [List.mem_singleton] at hx
        rw [hx]
    · rw [hrec]
      show db.history.filter
        (fun x => !(x.id == (db.history.getLast hne).id)) = db.history.dropLast
      exact filter_ne_last_id db.history hne hids
    · rw [hrec]
    · intro hsome
      rw [hrec]
      show pointsBalance (subtractPoints db.points
          (db.history.getLast hne).username (db.history.getLast hne).points)
          (db.history.getLast hne).username =
        balanceOf db (db.history.getLast hne).username -
          (db.history.getLast hne).points
      rw [pointsBalance_subtract_self _ _ _ hsome]
      rfl
    · rw [hrec]

/-- C8 counterexample: on an empty history, `undo_last_points_update`
returns failure with the message "No points to undo", not the claimed
"nothing to undo". -/
theorem undo_empty_message :
    (undo_last_points_update DB.empty).2 = Except.ok (false, "No points to undo") ∧
    "No points to undo" ≠ "nothing to undo" :=
  ⟨rfl, by decide⟩

/-- A store with two users, two history entries (ids 0 and 1,
timestamps 0 and 1), used to exercise the undo selection. -/
def db8 : DB :=
  ⟨[⟨"<@a>", 3⟩, ⟨"<@b>", 4⟩],
   [⟨0, "<@a>", 3, 1, "adm", 0⟩, ⟨1, "<@b>", 4, 2, "adm", 1⟩], [], 2, 2⟩

theorem undo_reverses_last_witness :
    db8.history.Pairwise (fun x y => x.id < y.id ∧ x.timestamp < y.timestamp) ∧
    db8.history ≠ [] ∧
    (undo_last_points_update db8).1.history = db8.history.dropLast ∧
    (undo_last_points_update db8).1.match_results = db8.match_results := by
  have h := undo_reverses_last db8 (by decide)
  have h2 := h.2 (by decide)
  exact ⟨by decide, by decide, h2.2.1, h2.2.2.1⟩

theorem leaderboardLe_trans : ∀ a b c : String × Int,
    leaderboardLe a b → leaderboardLe b c → leaderboardLe a c := by
  intro a b c hab hbc
  simp only [leaderboardLe, decide_eq_true_eq] at *
  exact le_trans hbc hab

theorem leaderboardLe_total : ∀ a b : String × Int,
    leaderboardLe a b || leaderboardLe b a := by
  intro a b
  simp only [leaderboardLe]
  rcases le_total b.2 a.2 with h | h <;> simp [h]

/-- C9: the leaderboard the `!d11` handler renders is the all-users
points view sorted in descending point order, and the sort is stable:
actors with equal points keep their original (first-seen/insertion)
relative order, expressed as the sequence of actors at each point value
being preserved verbatim. -/
theorem leaderboard_sorted_stable (db : DB) :
    (d11Leaderboard db).Pairwise (fun x y : String × Int => y.2 ≤ x.2) ∧
    (d11Leaderboard db).Perm (allPoints db) ∧
    (∀ p : Int, (d11Leaderboard db).filter (fun x => x.2 == p) =
      (allPoints db).filter (fun x => x.2 == p)) := by
  unfold d11Leaderboard leaderboardSort
  refine ⟨?_, List.mergeSort_perm _ _, ?_⟩
  · exact (List.sorted_mergeSort leaderboardLe_trans leaderboardLe_total
      (allPoints db)).imp (fun hab => by simpa [leaderboardLe] using hab)
  · intro p
    have hpair : ((allPoints db).filter (fun x => x.2 == p)).Pairwise
        (fun a b => leaderboardLe a b) := by
      apply List.pairwise_of_forall_mem_list
      intro a ha b hb
      have ha2 : a.2 = p := by simpa using List.of_mem_filter ha
      have hb2 : b.2 = p := by simpa using List.of_mem_filter hb
      simp [leaderboardLe, ha2, hb2]
    have hsub := List.sublist_mergeSort leaderboardLe_trans leaderboardLe_total
      hpair (List.filter_sublist (allPoints db))
    have hsub2 := hsub.filter (fun x => x.2 == p)
    have hidem : ((allPoints db).filter (fun x => x.2 == p)).filter
        (fun x => x.2 == p) = (allPoints db).filter (fun x => x.2 == p) := by
      apply List.filter_eq_self.mpr
      intro x hx
      exact (List.mem_filter.mp hx).2
    rw [hidem] at hsub2
    exact (hsub2.eq_of_length
      (((List.mergeSort_perm (allPoints db) leaderboardLe).filter _).length_eq.symm)).symm

end D11
